import Mathlib

/-!
Verification of the ylf-chat message-log / presence / registry core.

The JavaScript data-store module (`db`) and the connection-handling module are
embedded shallowly: strings are `List Char`, the ambient mutable `store` object
is threaded explicitly, `Date.now()` and `crypto` randomness are oracle
parameters, and every operation returns its result together with the updated
store. Field and function names follow the source.
-/

set_option maxHeartbeats 1000000

namespace YlfChat

/-- The characters JavaScript's `\s` class and `String.prototype.trim` treat as
whitespace. -/
def isJsSpace (c : Char) : Bool :=
  c.toNat = 0x20 || c.toNat = 0x09 || c.toNat = 0x0a || c.toNat = 0x0b ||
  c.toNat = 0x0c || c.toNat = 0x0d || c.toNat = 0xa0 || c.toNat = 0x1680 ||
  (0x2000 ≤ c.toNat && c.toNat ≤ 0x200a) || c.toNat = 0x2028 ||
  c.toNat = 0x2029 || c.toNat = 0x202f || c.toNat = 0x205f ||
  c.toNat = 0x3000 || c.toNat = 0xfeff

/-- `String.prototype.trim`: strip leading and trailing whitespace. -/
def jsTrim (s : List Char) : List Char :=
  ((s.dropWhile isJsSpace).reverse.dropWhile isJsSpace).reverse

/-- `String.prototype.toLowerCase` (on the alphabets the chat uses). -/
def jsToLower (s : List Char) : List Char := s.map Char.toLower

/-- `String.prototype.toUpperCase` (on the alphabets the chat uses). -/
def jsToUpper (s : List Char) : List Char := s.map Char.toUpper

/-- A custom sticker record (store entry, part_000). -/
structure Sticker where
  id : List Char
  description : List Char
  preview_url : List Char
  image_url : List Char
  created_at : Nat
deriving DecidableEq, Repr

/-- A user record. `is_verified` is stored as `0`/`1` in the source and is
modelled by the corresponding `Bool`; fields the claims never touch
(password hash, verification token, reset code) are omitted. -/
structure User where
  id : Nat
  email : List Char
  display_name : List Char
  avatar_source : List Char
  avatar_url : Option (List Char)
  is_verified : Bool
  custom_stickers : List Sticker
deriving DecidableEq, Repr

/-- A message record. `user_id` is `null` for system messages; `is_deleted`
is stored as `0`/`1` in the source and modelled by `Bool`. `reply_to_id`
is whatever integer the client supplied (or `null`). -/
structure Message where
  id : Nat
  user_id : Option Nat
  content : List Char
  created_at : Nat
  reply_to_id : Option Int
  is_deleted : Bool
deriving DecidableEq, Repr

/-- An uploaded-file record. -/
structure FileRecord where
  id : Nat
  user_id : Nat
  code : List Char
  object_key : List Char
  file_name : List Char
  size : Nat
  content_type : List Char
  created_at : Nat
deriving DecidableEq, Repr

/-- The `store` object of the data module. -/
structure Store where
  users : List User
  messages : List Message
  files : List FileRecord
  nextUserId : Nat
  nextMessageId : Nat
  nextFileId : Nat
deriving DecidableEq, Repr

/-- `db.getUserById`: `store.users.find(u => u.id === id)` (the defensive
clone is the identity in a pure model). -/
def getUserById (store : Store) (id : Nat) : Option User :=
  store.users.find? (fun u => u.id == id)

/-- `db.saveMessage` (part_000:286-298): assign `store.nextMessageId++`,
push the record, return a copy. `replyToId || null` makes a `0` reply id
`null`. -/
def saveMessage (store : Store) (userId : Option Nat) (content : List Char)
    (createdAt : Nat) (replyToId : Option Int) : Message × Store :=
  let message : Message :=
    { id := store.nextMessageId
      user_id := userId
      content := content
      created_at := createdAt
      reply_to_id := match replyToId with
        | some r => if r = 0 then none else some r
        | none => none
      is_deleted := false }
  (message,
   { store with
      messages := store.messages ++ [message]
      nextMessageId := store.nextMessageId + 1 })

/-- The result objects `db.deleteMessage` returns
(`{success, reason?, already?}`). -/
structure DbResult where
  success : Bool
  reason : Option (List Char)
  already : Bool
deriving DecidableEq, Repr

/-- Mutating the message `find` located: flip `is_deleted` on the first
list entry whose id matches, leave everything else as it is. -/
def markDeletedFirst : List Message → Nat → List Message
  | [], _ => []
  | m :: ms, messageId =>
    if m.id = messageId then { m with is_deleted := true } :: ms
    else m :: markDeletedFirst ms messageId

/-- `db.deleteMessage` (part_000:300-314). -/
def deleteMessage (store : Store) (messageId : Nat) (requestingUserId : Option Nat) :
    DbResult × Store :=
  match store.messages.find? (fun m => m.id == messageId) with
  | none =>
    ({ success := false, reason := some "not_found".data, already := false }, store)
  | some message =>
    if message.user_id ≠ requestingUserId then
      ({ success := false, reason := some "permission_denied".data, already := false },
       store)
    else if message.is_deleted then
      ({ success := true, reason := none, already := true }, store)
    else
      ({ success := true, reason := none, already := false },
       { store with messages := markDeletedFirst store.messages messageId })

/-- The display-name normalization both sides of `db.getUserByDisplayName`
apply: `String(x || '').trim().toLowerCase()`. -/
def normalizeName (s : List Char) : List Char := jsToLower (jsTrim s)

/-- `db.getUserByDisplayName` (part_000:329-337). -/
def getUserByDisplayName (store : Store) (name : List Char) : Option User :=
  let value := normalizeName name
  if value = [] then none
  else store.users.find? (fun u => normalizeName u.display_name == value)

/-- A joined row of `db.getMessagesPage` / `db.getMessageById`. -/
structure MessageRow where
  id : Nat
  user_id : Option Nat
  content : List Char
  created_at : Nat
  display_name : List Char
  email : List Char
  avatar_source : List Char
  avatar_url : Option (List Char)
  is_deleted : Bool
  reply_to_id : Option Int
deriving DecidableEq, Repr

/-- The per-message body of `getMessagesPage`'s `.map` (part_000:348-363):
join the author; drop the row (`null`) when the author is gone and the
message is not a system message. -/
def rowOfMessage (users : List User) (msg : Message) : Option MessageRow :=
  match users.find? (fun u => some u.id == msg.user_id) with
  | none =>
    if msg.user_id ≠ none then none
    else some
      { id := msg.id, user_id := msg.user_id, content := msg.content
        created_at := msg.created_at, display_name := "系统消息".data
        email := [], avatar_source := "gravatar".data, avatar_url := none
        is_deleted := msg.is_deleted, reply_to_id := msg.reply_to_id }
  | some u =>
    some
      { id := msg.id, user_id := msg.user_id, content := msg.content
        created_at := msg.created_at, display_name := u.display_name
        email := u.email, avatar_source := u.avatar_source, avatar_url := u.avatar_url
        is_deleted := msg.is_deleted, reply_to_id := msg.reply_to_id }

/-- `db.getMessagesPage` (part_000:339-365). `limit` models
`Math.max(0, Number(limit) || 0)`; `beforeId = some b` models the
`Number.isInteger(beforeId)` branch. `slice(-take)` is dropping all but the
last `take` elements. -/
def getMessagesPage (store : Store) (limit : Nat) (beforeId : Option Int) :
    List MessageRow :=
  if limit = 0 then []
  else
    let filtered : List Message := match beforeId with
      | some b => store.messages.filter (fun m => decide ((m.id : Int) < b))
      | none => store.messages
    let slice := filtered.drop (filtered.length - limit)
    slice.filterMap (rowOfMessage store.users)

/-- `MAX_CUSTOM_STICKERS` (part_000:7). -/
def MAX_CUSTOM_STICKERS : Nat := 60

/-- The result objects `db.addUserSticker` returns. -/
structure AddStickerResult where
  success : Bool
  reason : Option (List Char)
  sticker : Option Sticker
  stickers : List Sticker
deriving DecidableEq, Repr

/-- Mutating the user `find` located: apply `f` to the first list entry whose
id matches, leave everything else as it is. -/
def updateFirstUser : List User → Nat → (User → User) → List User
  | [], _, _ => []
  | u :: us, id, f => if u.id = id then f u :: us else u :: updateFirstUser us id f

/-- `db.addUserSticker` (part_000:377-401). `newStickerId` stands for
`crypto.randomBytes(8).toString('hex')` and `now` for `Date.now()`. -/
def addUserSticker (store : Store) (id : Nat)
    (description previewUrl imageUrl : List Char)
    (newStickerId : List Char) (now : Nat) : AddStickerResult × Store :=
  match store.users.find? (fun u => u.id == id) with
  | none =>
    ({ success := false, reason := some "not_found".data, sticker := none,
       stickers := [] }, store)
  | some user =>
    if MAX_CUSTOM_STICKERS ≤ user.custom_stickers.length then
      ({ success := false, reason := some "limit".data, sticker := none,
         stickers := [] }, store)
    else
      let sticker : Sticker :=
        { id := newStickerId, description := description, preview_url := previewUrl
          image_url := imageUrl, created_at := now }
      ({ success := true, reason := none, sticker := some sticker,
         stickers := user.custom_stickers ++ [sticker] },
       { store with
          users := updateFirstUser store.users id
            (fun u => { u with custom_stickers := u.custom_stickers ++ [sticker] }) })

/-- `db.getFileByCode` (part_000:434-438). -/
def getFileByCode (store : Store) (code : List Char) : Option FileRecord :=
  let normalized := jsToUpper (jsTrim code)
  if normalized = [] then none
  else store.files.find? (fun f => f.code == normalized)

/-! ## Presence (the connection handler and `scheduleDeparture`)

The server keeps `userSockets : Map userId (Set socketId)` and
`disconnectTimers : Map userId timer`. The claims are per-user, so the model
is the per-user projection: the user's connection set plus whether a departure
timer is pending for them. -/

/-- The `setTimeout` delay of `scheduleDeparture` (theme.js:1211). -/
def DEPARTURE_GRACE_MS : Nat := 3500

/-- Per-user presence state: the set of live socket ids plus whether a
departure (grace) timer is pending. -/
structure PresenceState where
  conns : Finset Nat
  timerPending : Bool
deriving DecidableEq

/-- A connection registering (theme.js:175-187): clear any pending departure
timer, compute `firstConnection` (`socketsForUser.size === 0 &&
!hadPendingDeparture`), add the socket. The returned `Bool` is
`firstConnection`, i.e. whether the "joined" system message and roster update
are broadcast (theme.js:213-216). -/
def register (s : PresenceState) (sock : Nat) : PresenceState × Bool :=
  let hadPendingDeparture := s.timerPending
  let firstConnection := (s.conns.card == 0) && !hadPendingDeparture
  ({ conns := insert sock s.conns, timerPending := false }, firstConnection)

/-- The disconnect handler (theme.js:324-334) followed by `scheduleDeparture`
(theme.js:1196-1213): remove the socket; if the set became empty, start the
grace timer — unless one is already pending. The returned `Bool` is whether a
new departure timer was started; no "left" notice is ever emitted here. -/
def unregister (s : PresenceState) (sock : Nat) : PresenceState × Bool :=
  let conns := s.conns.erase sock
  if conns.card = 0 then
    if s.timerPending then ({ conns := conns, timerPending := true }, false)
    else ({ conns := conns, timerPending := true }, true)
  else ({ conns := conns, timerPending := s.timerPending }, false)

/-- The departure timer firing (theme.js:1198-1211): the timer is removed;
if connections came back meanwhile nothing is emitted, otherwise the entry is
dropped and the "left" notice plus roster update broadcast. The returned
`Bool` is whether the "left" notice is emitted. -/
def timerFire (s : PresenceState) : PresenceState × Bool :=
  if s.conns.card = 0 then ({ conns := s.conns, timerPending := false }, true)
  else ({ conns := s.conns, timerPending := false }, false)

/-! ## Mention extraction (`extractMentions`, theme.js:1166-1182)

The regex `/@([^\s@]+)(?=\s|$)/g` matches at a position holding `@` whose
following maximal run of non-whitespace-non-`@` characters is nonempty and is
followed by whitespace or the end of the string (shorter, backtracked runs
always fail the lookahead, since the next character would belong to the run);
the scan then resumes after the matched `@token`. -/

/-- One `[^\s@]` character. -/
def isRunChar (c : Char) : Bool := !isJsSpace c && c != '@'

/-- The regex scan, fuelled by the remaining text length (each step consumes
at least one character, so `text.length` fuel is enough). -/
def scanTokensAux : Nat → List Char → List (List Char)
  | 0, _ => []
  | _, [] => []
  | fuel + 1, c :: cs =>
    if c = '@' then
      let run := cs.takeWhile isRunChar
      let rest := cs.dropWhile isRunChar
      if run ≠ [] ∧ (rest = [] ∨ isJsSpace (rest.headD ' ')) then
        run :: scanTokensAux fuel rest
      else scanTokensAux fuel cs
    else scanTokensAux fuel cs

/-- All `@`-tokens of `text`, in match order. -/
def scanTokens (text : List Char) : List (List Char) :=
  scanTokensAux text.length text

/-- The `{ids, map}` object `extractMentions` builds. -/
structure MentionResult where
  ids : List Nat
  map : List (List Char × Nat)
deriving DecidableEq, Repr

/-- `map.has(name)` on the association list. -/
def assocHas (m : List (List Char × Nat)) (k : List Char) : Bool :=
  m.any (fun e => e.1 == k)

/-- The body of `extractMentions`' while loop for one matched token. -/
def mentionStep (store : Store) (senderId : Nat) (acc : MentionResult)
    (name : List Char) : MentionResult :=
  match getUserByDisplayName store name with
  | some user =>
    if user.id ≠ senderId ∧ assocHas acc.map name = false then
      { ids := acc.ids ++ [user.id], map := acc.map ++ [(name, user.id)] }
    else acc
  | none => acc

/-- `extractMentions` (theme.js:1166-1182). -/
def extractMentions (store : Store) (text : List Char) (senderId : Nat) :
    MentionResult :=
  (scanTokens text).foldl (mentionStep store senderId) { ids := [], map := [] }

/-! ## The inbound `chat-message` handler (theme.js:220-288) -/

/-- `MAX_MESSAGE_LENGTH` (theme.js:66). -/
def MAX_MESSAGE_LENGTH : Nat := 5000

/-- The inbound `data` of a `chat-message` event: a plain string or an
object `{content, replyTo}` (`replyTo = some r` models the
`Number.isInteger(data.replyTo)` case). -/
inductive ChatData where
  | str (s : List Char)
  | obj (content : List Char) (replyTo : Option Int)
deriving DecidableEq

/-- The trimmed content the handler computes from `data`. -/
def trimmedContent : ChatData → List Char
  | .str s => jsTrim s
  | .obj c _ => jsTrim c

/-- The reply id the handler computes from `data`. -/
def replyOf : ChatData → Option Int
  | .str _ => none
  | .obj _ r => r

/-- The broadcast payload, reduced to the fields the claims mention (the html
rendering is delegated to the external markdown renderer, out of the core's
scope). -/
structure ChatPayload where
  id : Nat
  userId : Nat
  text : List Char
  mentions : List Nat
deriving DecidableEq, Repr

/-- The observable effects of one `chat-message` event: the store afterwards,
the saved record (if `db.saveMessage` was called), the payload broadcast by
`io.emit` to every connection (if any), the socket ids receiving a targeted
`mention` event in emit order, the `system-message` text sent to the sender
only (if any), and whether `auth-required` tore the connection down. -/
structure ChatEffects where
  store : Store
  saved : Option Message
  broadcast : Option ChatPayload
  mentionEmits : List Nat
  senderNotice : Option (List Char)
  authRequired : Bool
deriving DecidableEq

/-- `userSockets.get(uid)` of the server, as an association list of socket-id
lists (absent user: no sockets). -/
def socketsOf (userSockets : List (Nat × List Nat)) (uid : Nat) : List Nat :=
  match userSockets.find? (fun e => e.1 == uid) with
  | some e => e.2
  | none => []

/-- The `socket.on('chat-message')` handler (theme.js:220-288). `senderId` is
`socket.data.userId` and `now` is `Date.now()`. -/
def handleChatMessage (store : Store) (userSockets : List (Nat × List Nat))
    (senderId : Nat) (data : ChatData) (now : Nat) : ChatEffects :=
  let content := trimmedContent data
  if content = [] then
    { store := store, saved := none, broadcast := none, mentionEmits := [],
      senderNotice := none, authRequired := false }
  else if MAX_MESSAGE_LENGTH < content.length then
    { store := store, saved := none, broadcast := none, mentionEmits := [],
      senderNotice := some "消息长度不能超过 5000 个字符。".data,
      authRequired := false }
  else
    match getUserById store senderId with
    | none =>
      { store := store, saved := none, broadcast := none, mentionEmits := [],
        senderNotice := none, authRequired := true }
    | some freshUser =>
      if !freshUser.is_verified then
        { store := store, saved := none, broadcast := none, mentionEmits := [],
          senderNotice := some "邮箱尚未验证，暂时无法发送消息。请在邮箱中完成验证后刷新页面。".data,
          authRequired := false }
      else
        let mentions := extractMentions store content freshUser.id
        let savedPair := saveMessage store (some freshUser.id) content now (replyOf data)
        { store := savedPair.2
          saved := some savedPair.1
          broadcast := some
            { id := savedPair.1.id, userId := freshUser.id, text := content,
              mentions := mentions.ids }
          mentionEmits := (mentions.ids.map (socketsOf userSockets)).flatten
          senderNotice := none
          authRequired := false }

/-! ## File-code allocation (`generateFileCode`, theme.js:1229-1244) -/

/-- `FILE_CODE_ALPHABET` (theme.js:73), 32 symbols. -/
def FILE_CODE_ALPHABET : List Char := "ABCDEFGHJKLMNPQRSTUVWXYZ23456789".data

/-- The random source: `ints n` is the value of the `n`-th call to
`crypto.randomInt(0, 32)` and `bytes` the six bytes of
`crypto.randomBytes(6)` used by the fallback. -/
structure RandSource where
  ints : Nat → Fin 32
  bytes : Fin 6 → Fin 256

/-- The 8-character candidate code the loop body builds on a given attempt
(theme.js:1232-1236). -/
def sampleCode (rand : RandSource) (attempt : Nat) : List Char :=
  (List.range 8).map (fun i => FILE_CODE_ALPHABET.getD (rand.ints (8 * attempt + i)).val 'A')

/-- The hex digits of `Buffer.toString('hex')` after `.toUpperCase()`. -/
def HEX_UPPER : List Char := "0123456789ABCDEF".data

/-- One byte as two uppercase hex characters. -/
def hexByteUpper (b : Fin 256) : List Char :=
  [HEX_UPPER.getD (b.val / 16) '0', HEX_UPPER.getD (b.val % 16) '0']

/-- `crypto.randomBytes(6).toString('hex').toUpperCase()`: 12 hex characters. -/
def hexFallback (rand : RandSource) : List Char :=
  ((List.finRange 6).map (fun i => hexByteUpper (rand.bytes i))).flatten

/-- The retry loop: starting at `attempt`, with `fuel` tries left, the first
sampled code free in the store, if any. -/
def genAttempt (store : Store) (rand : RandSource) : Nat → Nat → Option (List Char)
  | _, 0 => none
  | attempt, fuel + 1 =>
    let code := sampleCode rand attempt
    if getFileByCode store code = none then some code
    else genAttempt store rand (attempt + 1) fuel

/-- `generateFileCode` (theme.js:1229-1244): the do-while body runs at most
five times (`attempts` 0..4); then the hex fallback is sliced to 8
characters. -/
def generateFileCode (store : Store) (rand : RandSource) : List Char :=
  match genAttempt store rand 0 5 with
  | some code => code
  | none => (hexFallback rand).take 8

/-! ## Theorems -/

/-- The arguments of one `saveMessage` call. -/
structure AppendInput where
  userId : Option Nat
  content : List Char
  createdAt : Nat
  replyTo : Option Int
deriving DecidableEq

/-- A sequence of `saveMessage` calls, collecting the returned records. -/
def runAppends (store : Store) : List AppendInput → List Message × Store
  | [] => ([], store)
  | a :: rest =>
    let p := saveMessage store a.userId a.content a.createdAt a.replyTo
    let q := runAppends p.2 rest
    (p.1 :: q.1, q.2)

lemma runAppends_ids (store : Store) (inputs : List AppendInput) :
    ((runAppends store inputs).1.map Message.id) =
      List.range' store.nextMessageId inputs.length := by
  induction inputs generalizing store with
  | nil => simp [runAppends]
  | cons a rest ih => simp [runAppends, saveMessage, List.range'_succ, ih]

lemma pairwise_lt_range' (s n : Nat) : (List.range' s n).Pairwise (· < ·) := by
  induction n generalizing s with
  | zero => simp
  | succ n ih =>
    rw [List.range'_succ]
    refine List.Pairwise.cons (fun b hb => ?_) (ih (s + 1))
    have := (List.mem_range'_1.mp hb).1
    omega

/-- C1: for every sequence of `saveMessage` calls from any store state, the
ids of the returned messages are the consecutive counter values starting at
the store's `nextMessageId`; in particular they are strictly increasing in
call order, so id order equals append order. -/
theorem saveMessage_ids_strictly_increasing (store : Store)
    (inputs : List AppendInput) :
    ((runAppends store inputs).1.map Message.id) =
      List.range' store.nextMessageId inputs.length ∧
    ((runAppends store inputs).1.map Message.id).Pairwise (· < ·) := by
  refine ⟨runAppends_ids store inputs, ?_⟩
  rw [runAppends_ids store inputs]
  exact pairwise_lt_range' _ _

/-- C2: the per-user presence state machine. Registering while a connection
is live emits no "joined"; dropping one of two connections emits nothing and
starts no timer; dropping the last connection starts the 3.5-second grace
timer (and emits no "left" — `unregister` never emits); registering during
the grace window cancels the timer and emits neither notice; and a register
from the fully-offline state is exactly the one that emits "joined". -/
theorem presence_flap_suppression (s : PresenceState) (sock : Nat) :
    (s.conns.Nonempty → (register s sock).2 = false) ∧
    (sock ∈ s.conns → 2 ≤ s.conns.card →
      (unregister s sock).1.conns.Nonempty ∧ (unregister s sock).2 = false ∧
      (unregister s sock).1.timerPending = s.timerPending) ∧
    (s.conns = {sock} → s.timerPending = false →
      (unregister s sock).2 = true ∧ (unregister s sock).1.timerPending = true ∧
      DEPARTURE_GRACE_MS = 3500) ∧
    (s.timerPending = true →
      (register s sock).1.timerPending = false ∧ (register s sock).2 = false) ∧
    (s.conns = ∅ → s.timerPending = false → (register s sock).2 = true) := by
  refine ⟨?_, ?_, ?_, ?_, ?_⟩
  · intro h
    have hcard : s.conns.card ≠ 0 := by
      simp [Finset.card_eq_zero, ← Finset.nonempty_iff_ne_empty, h]
    simp [register, Nat.beq_eq, hcard]
  · intro hmem hcard
    have herase : (s.conns.erase sock).card = s.conns.card - 1 :=
      Finset.card_erase_of_mem hmem
    have hpos : (s.conns.erase sock).card ≠ 0 := by omega
    refine ⟨?_, ?_, ?_⟩
    · simp [unregister, hpos, ← Finset.card_pos]
      omega
    · simp [unregister, hpos]
    · simp [unregister, hpos]
  · intro hconns hpending
    have : (s.conns.erase sock).card = 0 := by
      simp [hconns, Finset.erase_singleton]
    refine ⟨?_, ?_, rfl⟩
    · simp [unregister, this, hpending]
    · simp [unregister, this, hpending]
  · intro hp
    constructor
    · simp [register]
    · simp [register, hp]
  · intro hconns hp
    simp [register, hconns, hp]

/-- `find?` on the message list splits it at the first id match, and
`markDeletedFirst` rewrites exactly that element. -/
lemma find?_id_split {l : List Message} {mid : Nat} {m : Message}
    (h : l.find? (fun x => x.id == mid) = some m) :
    m.id = mid ∧ ∃ pre post, l = pre ++ m :: post ∧
      (∀ x ∈ pre, x.id ≠ mid) ∧
      markDeletedFirst l mid = pre ++ { m with is_deleted := true } :: post := by
  induction l with
  | nil => simp at h
  | cons a l ih =>
    by_cases ha : a.id = mid
    · rw [List.find?_cons_of_pos _ (by simpa using ha)] at h
      obtain rfl : a = m := by simpa using h
      exact ⟨ha, [], l, rfl, by simp, by simp [markDeletedFirst, ha]⟩
    · rw [List.find?_cons_of_neg _ (by simpa using ha)] at h
      obtain ⟨hm, pre, post, hl, hpre, hmark⟩ := ih h
      exact ⟨hm, a :: pre, post, by simp [hl], by simpa [ha] using hpre,
        by simp [markDeletedFirst, ha, hmark]⟩

/-- C3: the full result contract of `deleteMessage`: `not_found` when no
message has the id; `permission_denied` with the store unchanged (hence also
on every repeated call) when the author differs from the requester; success
with `already` and no store change when the message is already deleted; and
otherwise success flipping only the `is_deleted` flag of that message,
leaving its other fields, all other messages and all other store fields
unchanged. -/
theorem deleteMessage_contract (store : Store) (messageId : Nat)
    (requester : Option Nat) :
    (store.messages.find? (fun m => m.id == messageId) = none →
      deleteMessage store messageId requester =
        ({ success := false, reason := some "not_found".data, already := false },
         store)) ∧
    (∀ m, store.messages.find? (fun x => x.id == messageId) = some m →
      m.user_id ≠ requester →
      deleteMessage store messageId requester =
        ({ success := false, reason := some "permission_denied".data,
           already := false }, store) ∧
      deleteMessage ((deleteMessage store messageId requester).2) messageId requester =
        deleteMessage store messageId requester) ∧
    (∀ m, store.messages.find? (fun x => x.id == messageId) = some m →
      m.user_id = requester → m.is_deleted = true →
      deleteMessage store messageId requester =
        ({ success := true, reason := none, already := true }, store)) ∧
    (∀ m, store.messages.find? (fun x => x.id == messageId) = some m →
      m.user_id = requester → m.is_deleted = false →
      ∃ pre post, store.messages = pre ++ m :: post ∧
        (∀ x ∈ pre, x.id ≠ messageId) ∧
        deleteMessage store messageId requester =
          ({ success := true, reason := none, already := false },
           { store with messages := pre ++ { m with is_deleted := true } :: post })) := by
  refine ⟨?_, ?_, ?_, ?_⟩
  · intro h
    simp only [deleteMessage]
    rw [h]
  · intro m hfind hne
    have h1 : deleteMessage store messageId requester =
        ({ success := false, reason := some "permission_denied".data,
           already := false }, store) := by
      simp only [deleteMessage]
      rw [hfind]
      simp [hne]
    exact ⟨h1, by rw [h1]; exact h1⟩
  · intro m hfind heq hdel
    simp only [deleteMessage]
    rw [hfind]
    simp [heq, hdel]
  · intro m hfind heq hdel
    obtain ⟨_, pre, post, hl, hpre, hmark⟩ := find?_id_split hfind
    refine ⟨pre, post, hl, hpre, ?_⟩
    simp only [deleteMessage]
    rw [hfind]
    simp [heq, hdel, hmark]

/-- C10: a system message (`user_id` null) can never be soft-deleted by an
authenticated user: `deleteMessage` answers `permission_denied` and leaves
the store unchanged. -/
theorem deleteMessage_system_protected (store : Store) (messageId u : Nat)
    (m : Message)
    (hfind : store.messages.find? (fun x => x.id == messageId) = some m)
    (hsys : m.user_id = none) :
    deleteMessage store messageId (some u) =
      ({ success := false, reason := some "permission_denied".data,
         already := false }, store) := by
  simp only [deleteMessage]
  rw [hfind]
  simp [hsys]

/-- The system message of the C10 witness store. -/
def c10Message : Message :=
  { id := 1
    user_id := none
    content := "sys".data
    created_at := 0
    reply_to_id := none
    is_deleted := false }

/-- A store holding one system message, for the C10 witness. -/
def c10Store : Store :=
  { users := []
    messages := [c10Message]
    files := []
    nextUserId := 1
    nextMessageId := 2
    nextFileId := 1 }

theorem deleteMessage_system_protected_witness :
    deleteMessage c10Store 1 (some 7) =
      ({ success := false, reason := some "permission_denied".data,
         already := false }, c10Store) :=
  deleteMessage_system_protected c10Store 1 7 c10Message (by decide) rfl

/-- The sticker record `addUserSticker` builds from its arguments (the id is
the freshly drawn `crypto.randomBytes(8).toString('hex')` value). -/
def builtSticker (description previewUrl imageUrl newStickerId : List Char)
    (now : Nat) : Sticker :=
  { id := newStickerId
    description := description
    preview_url := previewUrl
    image_url := imageUrl
    created_at := now }

/-- The store after the success case of `addUserSticker`: the found user's
collection gets the sticker appended, all else is untouched. -/
def addStickerStore (store : Store) (uid : Nat) (sticker : Sticker) : Store :=
  { store with users := updateFirstUser store.users uid (fun x => { x with custom_stickers := x.custom_stickers ++ [sticker] }) }

/-- C9: the contract of `addUserSticker`: `not_found` for an absent user;
`limit` with the collection (and whole store) untouched once the user holds
`MAX_CUSTOM_STICKERS` (60) stickers; otherwise it appends a sticker carrying
the freshly drawn random id and returns it with the full updated collection,
whose size never exceeds 60. -/
theorem addUserSticker_contract (store : Store) (uid : Nat)
    (description previewUrl imageUrl newStickerId : List Char) (now : Nat) :
    (store.users.find? (fun u => u.id == uid) = none →
      addUserSticker store uid description previewUrl imageUrl newStickerId now =
        ({ success := false, reason := some "not_found".data, sticker := none,
           stickers := [] }, store)) ∧
    (∀ v, store.users.find? (fun u => u.id == uid) = some v →
      MAX_CUSTOM_STICKERS ≤ v.custom_stickers.length →
      addUserSticker store uid description previewUrl imageUrl newStickerId now =
        ({ success := false, reason := some "limit".data, sticker := none,
           stickers := [] }, store)) ∧
    (∀ v, store.users.find? (fun u => u.id == uid) = some v →
      v.custom_stickers.length < MAX_CUSTOM_STICKERS →
      addUserSticker store uid description previewUrl imageUrl newStickerId now =
        ({ success := true, reason := none,
           sticker := some (builtSticker description previewUrl imageUrl newStickerId now),
           stickers := v.custom_stickers ++
             [builtSticker description previewUrl imageUrl newStickerId now] },
         addStickerStore store uid
           (builtSticker description previewUrl imageUrl newStickerId now)) ∧
      (v.custom_stickers ++
        [builtSticker description previewUrl imageUrl newStickerId now]).length ≤
        MAX_CUSTOM_STICKERS) := by
  refine ⟨?_, ?_, ?_⟩
  · intro h
    simp only [addUserSticker]
    rw [h]
  · intro v hfind hlim
    simp only [addUserSticker]
    rw [hfind]
    simp [hlim]
  · intro v hfind hlt
    constructor
    · simp only [addUserSticker]
      rw [hfind]
      simp [Nat.not_le.mpr hlt, builtSticker, addStickerStore]
    · simp only [List.length_append, List.length_cons, List.length_nil]
      unfold MAX_CUSTOM_STICKERS at hlt ⊢
      omega

lemma sampleCode_length (rand : RandSource) (k : Nat) :
    (sampleCode rand k).length = 8 := by
  simp [sampleCode]

lemma sampleCode_mem_alphabet (rand : RandSource) (k : Nat) :
    ∀ c ∈ sampleCode rand k, c ∈ FILE_CODE_ALPHABET := by
  intro c hc
  simp only [sampleCode, List.mem_map, List.mem_range] at hc
  obtain ⟨i, _, rfl⟩ := hc
  have hlt : (rand.ints (8 * k + i)).val < FILE_CODE_ALPHABET.length := by
    have h8 := (rand.ints (8 * k + i)).isLt
    have h32 : FILE_CODE_ALPHABET.length = 32 := by decide
    omega
  rw [List.getD_eq_getElem _ _ hlt]
  exact List.getElem_mem hlt

lemma genAttempt_some (store : Store) (rand : RandSource) :
    ∀ fuel start c, genAttempt store rand start fuel = some c →
      ∃ k, start ≤ k ∧ k < start + fuel ∧ c = sampleCode rand k ∧
        getFileByCode store (sampleCode rand k) = none ∧
        ∀ j, start ≤ j → j < k → getFileByCode store (sampleCode rand j) ≠ none := by
  intro fuel
  induction fuel with
  | zero => intro start c h; simp [genAttempt] at h
  | succ n ih =>
    intro start c h
    simp only [genAttempt] at h
    by_cases hf : getFileByCode store (sampleCode rand start) = none
    · rw [if_pos hf] at h
      cases h
      exact ⟨start, le_refl _, by omega, rfl, hf, fun j h1 h2 => by omega⟩
    · rw [if_neg hf] at h
      obtain ⟨k, hk1, hk2, hc, hfree, hall⟩ := ih (start + 1) c h
      refine ⟨k, by omega, by omega, hc, hfree, fun j hj1 hj2 => ?_⟩
      by_cases hj : j = start
      · rw [hj]; exact hf
      · exact hall j (by omega) hj2

lemma genAttempt_none (store : Store) (rand : RandSource) :
    ∀ fuel start, genAttempt store rand start fuel = none →
      ∀ j, start ≤ j → j < start + fuel →
        getFileByCode store (sampleCode rand j) ≠ none := by
  intro fuel
  induction fuel with
  | zero => intro start _ j h1 h2; omega
  | succ n ih =>
    intro start h j h1 h2
    simp only [genAttempt] at h
    by_cases hf : getFileByCode store (sampleCode rand start) = none
    · rw [if_pos hf] at h; cases h
    · rw [if_neg hf] at h
      by_cases hj : j = start
      · rw [hj]; exact hf
      · exact ih (start + 1) h j (by omega) (by omega)

lemma hexFallback_length (rand : RandSource) : (hexFallback rand).length = 12 := by
  simp [hexFallback, hexByteUpper, List.length_flatten, List.map_map,
    Function.comp_def, List.finRange]

/-- C8: for every store state and every behaviour of the random source,
`generateFileCode` returns an 8-character string. Either some attempt
`k < 5` produced a code (all of whose characters come from the restricted
32-symbol alphabet) that does not collide with an existing file code, after
every earlier attempt collided; or all five sampled codes collided and the
result is the 8-character slice of the random uppercase hex string — the
loop never runs past five attempts. -/
theorem generateFileCode_contract (store : Store) (rand : RandSource) :
    (generateFileCode store rand).length = 8 ∧
    ((∃ k, k < 5 ∧ generateFileCode store rand = sampleCode rand k ∧
        getFileByCode store (generateFileCode store rand) = none ∧
        (∀ c ∈ generateFileCode store rand, c ∈ FILE_CODE_ALPHABET) ∧
        ∀ j, j < k → getFileByCode store (sampleCode rand j) ≠ none) ∨
      ((∀ k, k < 5 → getFileByCode store (sampleCode rand k) ≠ none) ∧
        generateFileCode store rand = (hexFallback rand).take 8)) := by
  unfold generateFileCode
  cases hgen : genAttempt store rand 0 5 with
  | some code =>
    obtain ⟨k, hk0, hk5, hcode, hfree, hall⟩ := genAttempt_some store rand 5 0 code hgen
    subst hcode
    refine ⟨sampleCode_length rand k, Or.inl ⟨k, by omega, rfl, hfree, ?_, ?_⟩⟩
    · exact sampleCode_mem_alphabet rand k
    · exact fun j hj => hall j (by omega) hj
  | none =>
    have hall := genAttempt_none store rand 5 0 hgen
    refine ⟨?_, Or.inr ⟨fun k hk => hall k (by omega) (by omega), rfl⟩⟩
    rw [List.length_take, hexFallback_length]
    rfl

lemma getUserByDisplayName_matches {store : Store} {name : List Char} {u : User}
    (h : getUserByDisplayName store name = some u) :
    normalizeName u.display_name = normalizeName name := by
  unfold getUserByDisplayName at h
  by_cases hv : normalizeName name = []
  · simp [hv] at h
  · rw [if_neg hv] at h
    have hp := List.find?_some h
    simpa using hp

/-- The invariant `extractMentions`' while loop maintains: the sender never
appears among the collected ids, each token name is keyed at most once, the
ids are the map's values in insertion (first-occurrence) order, and every
entry resolves its name by normalized (trimmed, lowercased) display-name
equality to a non-sender user. -/
def MentionInv (store : Store) (senderId : Nat) (acc : MentionResult) : Prop :=
  senderId ∉ acc.ids ∧
  (acc.map.map Prod.fst).Nodup ∧
  acc.ids = acc.map.map Prod.snd ∧
  ∀ p ∈ acc.map, ∃ u, getUserByDisplayName store p.1 = some u ∧ u.id = p.2 ∧
    normalizeName u.display_name = normalizeName p.1 ∧ u.id ≠ senderId

lemma mentionStep_inv {store : Store} {senderId : Nat} {acc : MentionResult}
    (name : List Char) (h : MentionInv store senderId acc) :
    MentionInv store senderId (mentionStep store senderId acc name) := by
  obtain ⟨h1, h2, h3, h4⟩ := h
  cases hu : getUserByDisplayName store name with
  | none =>
    have heq : mentionStep store senderId acc name = acc := by
      simp only [mentionStep, hu]
    rw [heq]
    exact ⟨h1, h2, h3, h4⟩
  | some user =>
    by_cases hcond : user.id ≠ senderId ∧ assocHas acc.map name = false
    · have heq : mentionStep store senderId acc name =
          { ids := acc.ids ++ [user.id], map := acc.map ++ [(name, user.id)] } := by
        simp only [mentionStep, hu, if_pos hcond]
      rw [heq]
      obtain ⟨hne, hhas⟩ := hcond
      have hnot : name ∉ acc.map.map Prod.fst := by
        intro hmem
        obtain ⟨p, hp, hfst⟩ := List.mem_map.mp hmem
        have : acc.map.any (fun e => e.1 == name) = true :=
          List.any_eq_true.mpr ⟨p, hp, by simp [hfst]⟩
        rw [assocHas] at hhas
        rw [hhas] at this
        exact Bool.false_ne_true this
      refine ⟨?_, ?_, ?_, ?_⟩
      · intro hmem
        rcases List.mem_append.mp hmem with hl | hr
        · exact h1 hl
        · simp at hr
          exact hne hr.symm
      · rw [List.map_append]
        simp only [List.map_cons, List.map_nil]
        rw [List.nodup_append]
        exact ⟨h2, List.nodup_singleton _, by simpa using hnot⟩
      · simp only [List.map_append, h3, List.map_cons, List.map_nil]
      · intro p hp
        rcases List.mem_append.mp hp with hl | hr
        · exact h4 p hl
        · simp only [List.mem_singleton] at hr
          subst hr
          exact ⟨user, hu, rfl, getUserByDisplayName_matches hu, hne⟩
    · have heq : mentionStep store senderId acc name = acc := by
        simp only [mentionStep, hu, if_neg hcond]
      rw [heq]
      exact ⟨h1, h2, h3, h4⟩

lemma foldl_mention_inv (store : Store) (senderId : Nat)
    (tokens : List (List Char)) (acc : MentionResult)
    (h : MentionInv store senderId acc) :
    MentionInv store senderId (tokens.foldl (mentionStep store senderId) acc) := by
  induction tokens generalizing acc with
  | nil => simpa using h
  | cons t ts ih => exact ih _ (mentionStep_inv t h)

/-- C6 (amended): `extractMentions` never includes the sender's id (even if
the sender mentions their own display name), keys each distinct token text at
most once, lists the resolved ids exactly in first-occurrence order of their
tokens, and resolves every entry by case-insensitive, trimmed, exact
display-name match to a non-sender user. (Deduplication is per token text,
not per resolved user — see the counterexample.) -/
theorem extractMentions_resolution (store : Store) (text : List Char)
    (senderId : Nat) :
    senderId ∉ (extractMentions store text senderId).ids ∧
    ((extractMentions store text senderId).map.map Prod.fst).Nodup ∧
    (extractMentions store text senderId).ids =
      (extractMentions store text senderId).map.map Prod.snd ∧
    ∀ p ∈ (extractMentions store text senderId).map,
      ∃ u, getUserByDisplayName store p.1 = some u ∧ u.id = p.2 ∧
        normalizeName u.display_name = normalizeName p.1 ∧ u.id ≠ senderId :=
  foldl_mention_inv store senderId (scanTokens text) { ids := [], map := [] }
    ⟨by simp, by simp, rfl, by simp⟩

/-- The single user of the C6 counterexample store. -/
def c6User : User :=
  { id := 1
    email := "b@x".data
    display_name := "bob".data
    avatar_source := "gravatar".data
    avatar_url := none
    is_verified := true
    custom_stickers := [] }

/-- The C6 counterexample store: a directory holding only `bob`. -/
def c6Store : Store :=
  { users := [c6User]
    messages := []
    files := []
    nextUserId := 2
    nextMessageId := 1
    nextFileId := 1 }

/-- C6 counterexample: sender 2 writes `@Bob @BOB`; both tokens resolve
case-insensitively to user 1, and because deduplication keys on the raw
token text, user 1's id is included twice — refuting "includes each matched
user only once". -/
theorem extractMentions_duplicate_user_counterexample :
    (extractMentions c6Store "@Bob @BOB".data 2).ids = [1, 1] ∧
    ¬ (extractMentions c6Store "@Bob @BOB".data 2).ids.Nodup := by decide

/-- The `filtered` list of `getMessagesPage`. -/
def pageFiltered (store : Store) (beforeId : Option Int) : List Message :=
  match beforeId with
  | some b => store.messages.filter (fun m => decide ((m.id : Int) < b))
  | none => store.messages

lemma getMessagesPage_eq (store : Store) (limit : Nat) (beforeId : Option Int)
    (h : ¬ limit = 0) :
    getMessagesPage store limit beforeId =
      ((pageFiltered store beforeId).drop
        ((pageFiltered store beforeId).length - limit)).filterMap
        (rowOfMessage store.users) := by
  cases beforeId <;> simp [getMessagesPage, pageFiltered, h]

lemma rowOfMessage_id {users : List User} {m : Message} {r : MessageRow}
    (h : rowOfMessage users m = some r) : r.id = m.id := by
  unfold rowOfMessage at h
  cases hfind : users.find? (fun u => some u.id == m.user_id) with
  | none =>
    rw [hfind] at h
    by_cases hm : m.user_id = none
    · simp [hm] at h
      rw [← h]
    · simp [hm] at h
  | some u =>
    rw [hfind] at h
    simp at h
    rw [← h]

/-- A message the page join keeps: a system message (`user_id` null) or one
whose author still exists (part_000:350). -/
def renderable (users : List User) (m : Message) : Bool :=
  m.user_id == none || (users.find? (fun u => some u.id == m.user_id)).isSome

lemma rowOfMessage_isSome (users : List User) (m : Message) :
    (rowOfMessage users m).isSome = renderable users m := by
  unfold rowOfMessage renderable
  cases hfind : users.find? (fun u => some u.id == m.user_id) with
  | none =>
    cases hm : m.user_id with
    | none => simp [hm]
    | some v => simp [hm]
  | some u => simp

lemma mem_page {store : Store} {limit : Nat} {beforeId : Option Int}
    {r : MessageRow} (hr : r ∈ getMessagesPage store limit beforeId) :
    ∃ m ∈ store.messages, rowOfMessage store.users m = some r ∧ r.id = m.id ∧
      ∀ b, beforeId = some b → (m.id : Int) < b := by
  by_cases h : limit = 0
  · simp [getMessagesPage, h] at hr
  rw [getMessagesPage_eq store limit beforeId h] at hr
  obtain ⟨m, hm, hrow⟩ := List.mem_filterMap.mp hr
  have hm' : m ∈ pageFiltered store beforeId := List.mem_of_mem_drop hm
  have hid := rowOfMessage_id hrow
  cases beforeId with
  | none =>
    refine ⟨m, by simpa [pageFiltered] using hm', hrow, hid, ?_⟩
    intro b hb
    cases hb
  | some b =>
    have hmem : m ∈ store.messages ∧ (m.id : Int) < b := by
      simpa [pageFiltered, List.mem_filter] using hm'
    refine ⟨m, hmem.1, hrow, hid, ?_⟩
    intro b' hb'
    cases hb'
    exact hmem.2

lemma page_length_le (store : Store) (limit : Nat) (beforeId : Option Int) :
    (getMessagesPage store limit beforeId).length ≤ limit := by
  by_cases h : limit = 0
  · simp [getMessagesPage, h]
  rw [getMessagesPage_eq store limit beforeId h]
  have h1 := List.length_filterMap_le (rowOfMessage store.users)
    ((pageFiltered store beforeId).drop ((pageFiltered store beforeId).length - limit))
  have h2 := List.length_drop ((pageFiltered store beforeId).length - limit)
    (pageFiltered store beforeId)
  omega

lemma filterMap_row_map_id_sublist (users : List User) (l : List Message) :
    ((l.filterMap (rowOfMessage users)).map MessageRow.id).Sublist
      (l.map Message.id) := by
  induction l with
  | nil => simp
  | cons m l ih =>
    cases hrow : rowOfMessage users m with
    | none =>
      simp only [List.filterMap_cons, hrow, List.map_cons]
      exact ih.cons m.id
    | some r =>
      simp only [List.filterMap_cons, hrow, List.map_cons, rowOfMessage_id hrow]
      exact ih.cons₂ m.id

lemma pageFiltered_sublist (store : Store) (beforeId : Option Int) :
    (pageFiltered store beforeId).Sublist store.messages := by
  cases beforeId with
  | none => exact List.Sublist.refl _
  | some b => exact List.filter_sublist _

lemma page_sorted (store : Store) (limit : Nat) (beforeId : Option Int)
    (hsorted : store.messages.Pairwise (fun a b => a.id < b.id)) :
    ((getMessagesPage store limit beforeId).map MessageRow.id).Pairwise (· < ·) := by
  by_cases h : limit = 0
  · simp [getMessagesPage, h]
  rw [getMessagesPage_eq store limit beforeId h]
  have h1 := filterMap_row_map_id_sublist store.users
    ((pageFiltered store beforeId).drop ((pageFiltered store beforeId).length - limit))
  have h2 : ((pageFiltered store beforeId).drop
      ((pageFiltered store beforeId).length - limit)).Sublist store.messages :=
    (List.drop_sublist _ _).trans (pageFiltered_sublist store beforeId)
  have h3 : (store.messages.map Message.id).Pairwise (· < ·) :=
    (List.pairwise_map).mpr hsorted
  exact h3.sublist (h1.trans (h2.map Message.id))

/-- The cursor update of the history walk (theme.js:301-322): after a page of
full length `limit`, the coordinator continues with the page's first —
under the id-sorted invariant, smallest — id as the new `beforeId`; a short
or empty page ends the walk. -/
def pageStep (store : Store) (limit : Nat) (c : Int) : Int :=
  match getMessagesPage store limit (some c) with
  | [] => c
  | r :: rs => if (r :: rs).length = limit then (r.id : Int) else c

/-- How many stored messages lie strictly below the cursor. -/
def olderCount (store : Store) (c : Int) : Nat :=
  (store.messages.filter (fun m => decide ((m.id : Int) < c))).length

lemma filter_length_mono {α : Type} {p q : α → Bool} :
    ∀ l : List α, (∀ x ∈ l, p x = true → q x = true) →
      (l.filter p).length ≤ (l.filter q).length := by
  intro l
  induction l with
  | nil => intro _; simp
  | cons x xs ih =>
    intro himp
    rw [List.filter_cons, List.filter_cons]
    have hrec := ih (fun y hy => himp y (List.mem_cons_of_mem _ hy))
    by_cases hx : p x = true
    · rw [hx, himp x (List.mem_cons_self _ _) hx]
      simpa using hrec
    · rw [Bool.not_eq_true] at hx
      rw [hx]
      by_cases hx2 : q x = true
      · rw [hx2]
        simp
        omega
      · rw [Bool.not_eq_true] at hx2
        rw [hx2]
        simpa using hrec

lemma filter_length_lt {α : Type} {p q : α → Bool} :
    ∀ l : List α, (∀ x ∈ l, p x = true → q x = true) →
      ∀ a ∈ l, q a = true → p a = false →
        (l.filter p).length < (l.filter q).length := by
  intro l
  induction l with
  | nil => intro _ a ha; simp at ha
  | cons x xs ih =>
    intro himp a ha hq hp
    rcases List.mem_cons.mp ha with rfl | hmem
    · rw [List.filter_cons, List.filter_cons, hq, hp]
      have := filter_length_mono xs (fun y hy => himp y (List.mem_cons_of_mem _ hy))
      simp
      omega
    · have hrec := ih (fun y hy => himp y (List.mem_cons_of_mem _ hy)) a hmem hq hp
      rw [List.filter_cons, List.filter_cons]
      by_cases hx : p x = true
      · rw [hx, himp x (List.mem_cons_self _ _) hx]
        simpa using hrec
      · rw [Bool.not_eq_true] at hx
        rw [hx]
        by_cases hx2 : q x = true
        · rw [hx2]
          simp
          omega
        · rw [Bool.not_eq_true] at hx2
          rw [hx2]
          simpa using hrec

lemma olderCount_decreases {store : Store} {limit : Nat} {c : Int}
    {r : MessageRow} {rs : List MessageRow}
    (hpage : getMessagesPage store limit (some c) = r :: rs) :
    olderCount store (r.id : Int) < olderCount store c := by
  have hr : r ∈ getMessagesPage store limit (some c) := by
    rw [hpage]; exact List.mem_cons_self _ _
  obtain ⟨m, hm, _, hid, hb⟩ := mem_page hr
  have hmc : (m.id : Int) < c := hb c rfl
  unfold olderCount
  refine filter_length_lt store.messages ?_ m hm ?_ ?_
  · intro x _ hx
    have hxr : (x.id : Int) < (r.id : Int) := by simpa using hx
    rw [hid] at hxr
    simp only [decide_eq_true_eq]
    omega
  · simp only [decide_eq_true_eq]
    exact hmc
  · simp only [decide_eq_false_iff_not]
    rw [hid]
    omega

lemma page_length_le_olderCount (store : Store) (limit : Nat) (c : Int) :
    (getMessagesPage store limit (some c)).length ≤ olderCount store c := by
  by_cases h : limit = 0
  · simp [getMessagesPage, h]
  rw [getMessagesPage_eq store limit (some c) h]
  have h1 := List.length_filterMap_le (rowOfMessage store.users)
    ((pageFiltered store (some c)).drop ((pageFiltered store (some c)).length - limit))
  have h2 := List.length_drop ((pageFiltered store (some c)).length - limit)
    (pageFiltered store (some c))
  have h3 : (pageFiltered store (some c)).length = olderCount store c := rfl
  omega

lemma page_walk_reaches_short (store : Store) (limit : Nat) (hl : 0 < limit) :
    ∀ N c, olderCount store c ≤ N →
      ∃ n, (getMessagesPage store limit
        (some ((pageStep store limit)^[n] c))).length < limit := by
  intro N
  induction N with
  | zero =>
    intro c hc
    refine ⟨0, ?_⟩
    simp only [Function.iterate_zero, id]
    have := page_length_le_olderCount store limit c
    omega
  | succ N ih =>
    intro c hc
    by_cases hshort : (getMessagesPage store limit (some c)).length < limit
    · exact ⟨0, by simpa using hshort⟩
    · have hlen : (getMessagesPage store limit (some c)).length = limit :=
        le_antisymm (page_length_le store limit (some c)) (not_lt.mp hshort)
      cases hpage : getMessagesPage store limit (some c) with
      | nil =>
        rw [hpage] at hlen
        simp at hlen
        omega
      | cons r rs =>
        have hstep : pageStep store limit c = (r.id : Int) := by
          rw [hpage] at hlen
          simp only [pageStep, hpage]
          rw [if_pos hlen]
        have hdec := olderCount_decreases hpage
        obtain ⟨n, hn⟩ := ih (r.id : Int) (by omega)
        refine ⟨n + 1, ?_⟩
        rw [Function.iterate_succ_apply, hstep]
        exact hn

/-- C4: under the message-log invariant (ids strictly increasing in storage
order, which `saveMessage` maintains), every page has at most `limit` rows,
its rows are strictly ascending by id, every returned id lies strictly below
the cursor when one is given, and the coordinator's walk — repeatedly
setting `beforeId` to the first (smallest) id of the previous full page —
reaches a page shorter than `limit` after finitely many steps. -/
theorem getMessagesPage_pagination (store : Store) (limit : Nat)
    (beforeId : Option Int)
    (hsorted : store.messages.Pairwise (fun a b => a.id < b.id)) :
    (getMessagesPage store limit beforeId).length ≤ limit ∧
    ((getMessagesPage store limit beforeId).map MessageRow.id).Pairwise (· < ·) ∧
    (∀ b, beforeId = some b →
      ∀ r ∈ getMessagesPage store limit beforeId, (r.id : Int) < b) ∧
    (0 < limit → ∀ c : Int, ∃ n : Nat,
      (getMessagesPage store limit
        (some ((pageStep store limit)^[n] c))).length < limit) := by
  refine ⟨page_length_le store limit beforeId,
    page_sorted store limit beforeId hsorted, ?_, ?_⟩
  · intro b hb r hr
    obtain ⟨m, _, _, hid, hlt⟩ := mem_page hr
    rw [hid]
    exact hlt b hb
  · intro hl c
    exact page_walk_reaches_short store limit hl (olderCount store c) c (le_refl _)

/-- A small sorted store for the C4 witness. -/
def c4Store : Store :=
  { users := [c6User]
    messages := [{ id := 1, user_id := some 1, content := "hi".data, created_at := 0, reply_to_id := none, is_deleted := false }, { id := 2, user_id := some 1, content := "yo".data, created_at := 1, reply_to_id := none, is_deleted := false }]
    files := []
    nextUserId := 2
    nextMessageId := 3
    nextFileId := 1 }

theorem getMessagesPage_pagination_witness :
    ((getMessagesPage c4Store 1 (some 3)).map MessageRow.id).Pairwise (· < ·) :=
  (getMessagesPage_pagination c4Store 1 (some 3) (by decide)).2.1

/-- C5's completeness property: every stored renderable message with id below
the cursor appears (by id) in the page — "no more history remains". -/
def pageComplete (store : Store) (limit : Nat) (c : Int) : Prop :=
  ∀ m ∈ store.messages, (m.id : Int) < c → renderable store.users m = true →
    m.id ∈ (getMessagesPage store limit (some c)).map MessageRow.id

instance pageCompleteDecidable (store : Store) (limit : Nat) (c : Int) :
    Decidable (pageComplete store limit c) := by
  unfold pageComplete
  infer_instance

/-- The C5 counterexample store: messages 1 and 3 by the existing user 1,
message 2 by the vanished user 99, all with ids below the cursor 10. -/
def c5Store : Store :=
  { users := [c6User]
    messages := [{ id := 1, user_id := some 1, content := "hi".data, created_at := 0, reply_to_id := none, is_deleted := false }, { id := 2, user_id := some 99, content := "ghost".data, created_at := 0, reply_to_id := none, is_deleted := false }, { id := 3, user_id := some 1, content := "yo".data, created_at := 0, reply_to_id := none, is_deleted := false }]
    files := []
    nextUserId := 2
    nextMessageId := 4
    nextFileId := 1 }

/-- C5 counterexample: with `limit = 2` and cursor `10`, the window slice is
`[message 2, message 3]`; message 2's author is gone, so the page is just
`[message 3]` — shorter than the limit — yet the renderable message 1 (id
`1 < 10`) was never returned, so a short page does not mean "no more
history". -/
theorem short_page_counterexample :
    (getMessagesPage c5Store 2 (some 10)).length < 2 ∧
    ¬ pageComplete c5Store 2 10 := by decide

lemma filterMap_length_of_all_isSome {α β : Type} {f : α → Option β} :
    ∀ l : List α, (∀ x ∈ l, (f x).isSome) → (l.filterMap f).length = l.length := by
  intro l
  induction l with
  | nil => intro _; simp
  | cons x xs ih =>
    intro h
    obtain ⟨y, hy⟩ := Option.isSome_iff_exists.mp (h x (List.mem_cons_self _ _))
    rw [List.filterMap_cons, hy]
    simp [ih (fun z hz => h z (List.mem_cons_of_mem _ hz))]

/-- C5 (amended): when every stored message is renderable (its author still
exists, or it is a system message), a page shorter than `limit` does mean no
more history: every message with id below the cursor is in that very page.
In general (see the counterexample) the author-join may shorten a page while
older renderable history remains, so the coordinator's
`done := rows.length < limit` flag can fire early. -/
theorem short_page_means_complete (store : Store) (limit : Nat) (c : Int)
    (hall : ∀ m ∈ store.messages, renderable store.users m = true)
    (hl : 0 < limit)
    (hshort : (getMessagesPage store limit (some c)).length < limit) :
    pageComplete store limit c := by
  intro m hm hc hrend
  have hlim : ¬ limit = 0 := by omega
  have hallf : ∀ x ∈ pageFiltered store (some c),
      (rowOfMessage store.users x).isSome := by
    intro x hx
    rw [rowOfMessage_isSome]
    exact hall x ((pageFiltered_sublist store (some c)).subset hx)
  rw [getMessagesPage_eq store limit (some c) hlim] at hshort ⊢
  have hdlen := List.length_drop
    ((pageFiltered store (some c)).length - limit) (pageFiltered store (some c))
  have hfm := filterMap_length_of_all_isSome
    ((pageFiltered store (some c)).drop ((pageFiltered store (some c)).length - limit))
    (fun x hx => hallf x (List.mem_of_mem_drop hx))
  have hdrop0 : (pageFiltered store (some c)).length - limit = 0 := by omega
  rw [hdrop0, List.drop_zero] at hshort ⊢
  have hmF : m ∈ pageFiltered store (some c) := by
    simp only [pageFiltered, List.mem_filter]
    exact ⟨hm, by simpa using hc⟩
  have hsome : (rowOfMessage store.users m).isSome := by
    rw [rowOfMessage_isSome]; exact hrend
  obtain ⟨r, hr⟩ := Option.isSome_iff_exists.mp hsome
  exact List.mem_map.mpr ⟨r, List.mem_filterMap.mpr ⟨m, hmF, hr⟩, rowOfMessage_id hr⟩

/-- A fully renderable store for the C5 witness. -/
def c5GoodStore : Store :=
  { users := [c6User]
    messages := [{ id := 1, user_id := some 1, content := "hi".data, created_at := 0, reply_to_id := none, is_deleted := false }]
    files := []
    nextUserId := 2
    nextMessageId := 2
    nextFileId := 1 }

theorem short_page_means_complete_witness :
    pageComplete c5GoodStore 2 5 :=
  short_page_means_complete c5GoodStore 2 5 (by decide) (by decide) (by decide)

/-- The no-op effects: nothing persisted, nothing emitted. -/
def silentEffects (store : Store) : ChatEffects :=
  { store := store
    saved := none
    broadcast := none
    mentionEmits := []
    senderNotice := none
    authRequired := false }

/-- The effects of the accept path: the message is appended, the payload is
broadcast to every connection, and each resolved mention recipient's sockets
get a targeted `mention` event. -/
def sentEffects (store : Store) (userSockets : List (Nat × List Nat)) (u : User)
    (content : List Char) (now : Nat) (reply : Option Int) : ChatEffects :=
  { store := (saveMessage store (some u.id) content now reply).2
    saved := some (saveMessage store (some u.id) content now reply).1
    broadcast := some { id := (saveMessage store (some u.id) content now reply).1.id, userId := u.id, text := content, mentions := (extractMentions store content u.id).ids }
    mentionEmits := ((extractMentions store content u.id).ids.map (socketsOf userSockets)).flatten
    senderNotice := none
    authRequired := false }

/-- C7: the inbound `chat-message` contract. Empty trimmed content leaves
every observable unchanged; over-length content (beyond 5000) persists and
broadcasts nothing (only a private notice to the sender); an unverified
sender likewise causes no persistence and no broadcast; otherwise the message
is appended via `saveMessage`, the payload broadcast to every connection, and
every socket of every resolved mention recipient receives a mention event. -/
theorem handleChatMessage_contract (store : Store)
    (userSockets : List (Nat × List Nat)) (senderId : Nat) (data : ChatData)
    (now : Nat) :
    (trimmedContent data = [] →
      handleChatMessage store userSockets senderId data now =
        silentEffects store) ∧
    (MAX_MESSAGE_LENGTH < (trimmedContent data).length →
      (handleChatMessage store userSockets senderId data now).saved = none ∧
      (handleChatMessage store userSockets senderId data now).store = store ∧
      (handleChatMessage store userSockets senderId data now).broadcast = none ∧
      (handleChatMessage store userSockets senderId data now).mentionEmits = []) ∧
    (∀ u, getUserById store senderId = some u → u.is_verified = false →
      (handleChatMessage store userSockets senderId data now).saved = none ∧
      (handleChatMessage store userSockets senderId data now).store = store ∧
      (handleChatMessage store userSockets senderId data now).broadcast = none ∧
      (handleChatMessage store userSockets senderId data now).mentionEmits = []) ∧
    (∀ u, getUserById store senderId = some u → u.is_verified = true →
      trimmedContent data ≠ [] →
      (trimmedContent data).length ≤ MAX_MESSAGE_LENGTH →
      handleChatMessage store userSockets senderId data now =
        sentEffects store userSockets u (trimmedContent data) now (replyOf data) ∧
      ∀ uid ∈ (extractMentions store (trimmedContent data) u.id).ids,
        ∀ sid ∈ socketsOf userSockets uid,
          sid ∈ (handleChatMessage store userSockets senderId data now).mentionEmits) := by
  refine ⟨?_, ?_, ?_, ?_⟩
  · intro h
    simp [handleChatMessage, h, silentEffects]
  · intro h
    by_cases hempty : trimmedContent data = []
    · rw [hempty] at h
      simp [MAX_MESSAGE_LENGTH] at h
    · simp [handleChatMessage, hempty, h]
  · intro u hu hver
    by_cases hempty : trimmedContent data = []
    · simp [handleChatMessage, hempty]
    · by_cases hlen : MAX_MESSAGE_LENGTH < (trimmedContent data).length
      · simp [handleChatMessage, hempty, hlen]
      · simp [handleChatMessage, hempty, hlen, hu, hver]
  · intro u hu hver hne hle
    have hlen : ¬ MAX_MESSAGE_LENGTH < (trimmedContent data).length :=
      not_lt.mpr hle
    have heq : handleChatMessage store userSockets senderId data now =
        sentEffects store userSockets u (trimmedContent data) now (replyOf data) := by
      simp [handleChatMessage, sentEffects, hne, hlen, hu, hver]
    refine ⟨heq, ?_⟩
    intro uid huid sid hsid
    rw [heq]
    simp only [sentEffects]
    exact List.mem_flatten.mpr
      ⟨socketsOf userSockets uid, List.mem_map.mpr ⟨uid, huid, rfl⟩, hsid⟩

end YlfChat
